import Mathlib

/-!
Shallow embedding of the PhotoScope repository (Rust) for checking its
natural-language specification.

Modelling conventions:
* Rust `f64` arithmetic on file sizes and megapixel counts is modelled by
  exact rationals (`ℚ`); all comparisons in the quality scorer compare
  against decimal constants that are exact in both models, and the only
  divisions involved in producing the scorer's inputs are by powers of two
  (exact in `f64`), so the rational model is the real-valued function the
  code implements.
* File paths are strings; a directory tree is the list of the regular-file
  paths a `WalkDir` traversal yields, in traversal order.
* The GUI session state of `gui_v2.rs` is embedded as an explicit record
  and the event handlers as pure state-transition functions.  The commit
  performed on a background thread is fallible I/O, so its outcome is an
  explicit `Bool` parameter of the transition, and the commit request the
  thread receives (chosen source path and optional metadata donor) is
  returned alongside the new state.  Textures, fonts and other purely
  presentational fields are omitted.
* `to_lowercase` is modelled with ASCII case mapping (`Char.toLower`); the
  strings the result is compared against are all ASCII.
-/

namespace PhotoScope

/-! ### Decimal rendering of counters (Rust integer `Display`) -/

/-- Decimal digit to character, as produced by Rust integer `Display`. -/
def digitChar (d : Nat) : Char :=
  match d with
  | 0 => '0'
  | 1 => '1'
  | 2 => '2'
  | 3 => '3'
  | 4 => '4'
  | 5 => '5'
  | 6 => '6'
  | 7 => '7'
  | 8 => '8'
  | _ => '9'

/-- Little-endian decimal digits of `n`, with explicit fuel so that the
recursion is structural (any `fuel ≥ n` gives the true digit list). -/
def digitsAux : Nat → Nat → List Nat
  | 0, _ => []
  | fuel + 1, n => if n = 0 then [] else n % 10 :: digitsAux fuel (n / 10)

/-- The value denoted by a little-endian digit list. -/
def decVal : List Nat → Nat
  | [] => 0
  | d :: ds => d + 10 * decVal ds

/-- Decimal rendering of a natural number, as Rust `format!` renders an
integer counter. -/
def natToDec (n : Nat) : String :=
  if n = 0 then "0" else String.mk (((digitsAux n n).reverse).map digitChar)

/-- ASCII lowercase of a string; models Rust `to_lowercase` on the ASCII
extensions the code compares against. -/
def toLowerStr (s : String) : String :=
  String.mk (s.data.map Char.toLower)

/-! ### Quality scorer (`image_analyzer.rs`, `calculate_quality_score`)

The Rust function takes `file_size_mb : f64`, `megapixels : f64`, an unused
metadata count and image handle, `is_lossless : bool`, and the file path
(used only for its extension).  We embed it with the unused arguments
dropped and the path represented by its extension (the value of Rust
`path.extension().and_then(|e| e.to_str())`). -/

/-- Resolution term of the quality score (0–40), stepped on megapixels. -/
def resolution_score (megapixels : ℚ) : ℕ :=
  if megapixels ≥ 48 then 40
  else if megapixels ≥ 24 then 35
  else if megapixels ≥ 12 then 30
  else if megapixels ≥ 8 then 25
  else if megapixels ≥ 5 then 20
  else if megapixels ≥ 2 then 15
  else if megapixels ≥ 1 then 10
  else 5

/-- Bytes-per-pixel estimate used by the scorer for JPEG inputs:
`total_bytes / total_pixels` with `total_pixels = megapixels * 1_000_000`
and `total_bytes = file_size_mb * 1024.0 * 1024.0`. -/
def bytes_per_pixel (file_size_mb megapixels : ℚ) : ℚ :=
  (file_size_mb * 1024 * 1024) / (megapixels * 1000000)

/-- Lowercased extension string the scorer compares against, the value of
Rust `path.extension().and_then(to_str).map(to_lowercase).unwrap_or_default()`. -/
def lowerExt (extension : Option String) : String :=
  (extension.map toLowerStr).getD ""

/-- Step table mapping the bytes-per-pixel estimate to the 0–60 JPEG
compression score. -/
def jpeg_bpp_score (bpp : ℚ) : ℕ :=
  if bpp ≥ 4.0 then 60
  else if bpp ≥ 3.0 then 55
  else if bpp ≥ 2.5 then 50
  else if bpp ≥ 2.0 then 45
  else if bpp ≥ 1.5 then 40
  else if bpp ≥ 1.2 then 35
  else if bpp ≥ 1.0 then 30
  else if bpp ≥ 0.7 then 25
  else if bpp ≥ 0.5 then 20
  else if bpp ≥ 0.4 then 15
  else if bpp ≥ 0.3 then 10
  else 5

/-- Compression term of the quality score (0–60). -/
def compression_score (file_size_mb megapixels : ℚ) (is_lossless : Bool)
    (extension : Option String) : ℕ :=
  if is_lossless then 60
  else if lowerExt extension = "jpg" ∨ lowerExt extension = "jpeg" then
    jpeg_bpp_score (bytes_per_pixel file_size_mb megapixels)
  else 30

/-- Total quality score: resolution term plus compression term, clamped
with `.min(100)` as in the source. -/
def calculate_quality_score (file_size_mb megapixels : ℚ) (is_lossless : Bool)
    (extension : Option String) : ℕ :=
  min (resolution_score megapixels
        + compression_score file_size_mb megapixels is_lossless extension) 100

/-- Lossless-format classification from `analyze_image`: lowercase extension
in png/tiff/tif/bmp. -/
def is_lossless_ext (extension : Option String) : Bool :=
  match extension with
  | some e =>
    toLowerStr e = "png" || toLowerStr e = "tiff" || toLowerStr e = "tif"
      || toLowerStr e = "bmp"
  | none => false

/-! ### Path helpers (Rust `Path::file_name` / `file_stem` / `extension`) -/

/-- Final path component (Rust `Path::file_name` for a path naming a
regular file): everything after the last `/`. -/
def baseName (path : String) : String :=
  String.mk ((path.data.reverse.takeWhile (fun c => c ≠ '/')).reverse)

/-- Rust `file_stem` / `extension` on a file name, with the defaults
`copy_to_output` applies (`unwrap_or("")` for the extension): split at the
last dot, except that a dot leading the whole name does not count (hidden
files such as `.bashrc` have no extension).  A `none` extension and an
empty extension behave identically everywhere downstream, so the extension
is returned as a plain string. -/
def rustStemExt (name : String) : String × String :=
  match (name.data.reverse).findIdx? (fun c => c = '.') with
  | none => (name, "")
  | some j =>
    let i := name.data.length - 1 - j
    if i = 0 then (name, "")
    else (String.mk (name.data.take i), String.mk (name.data.drop (i + 1)))

/-! ### Pair matcher (`file_manager.rs`) -/

/-- Allow-list of recognised image extensions from `is_image_file`. -/
def imageExtensions : List String :=
  ["jpg", "jpeg", "png", "gif", "bmp", "tiff", "tif", "webp", "raw", "cr2",
   "nef", "arw", "dng"]

/-- Rust `FileManager::is_image_file`: the path has an extension whose lowercase
form is in the allow-list. -/
def is_image_file (path : String) : Bool :=
  let ext := (rustStemExt (baseName path)).2
  if ext = "" then false else imageExtensions.contains (toLowerStr ext)

/-- Index of the first folder: base file name ↦ full path, built by
inserting while iterating the traversal; pushing the newest binding to the
front combined with first-match `lookup` gives the HashMap's
"last insert wins" semantics. -/
def index1 (folder1 : List String) : List (String × String) :=
  folder1.foldl
    (fun m p => if is_image_file p then (baseName p, p) :: m else m) []

/-- Unsorted matched pairs: for each qualifying file of the second folder
whose base name is indexed, emit `(path from folder1, path from folder2)`. -/
def rawPairs (folder1 folder2 : List String) : List (String × String) :=
  folder2.filterMap (fun q =>
    if is_image_file q then
      ((index1 folder1).lookup (baseName q)).map (fun p => (p, q))
    else none)

/-- Rust `FileManager::find_matching_files`: matched pairs sorted by the base
name of the first component. -/
def find_matching_files (folder1 folder2 : List String) : List (String × String) :=
  (rawPairs folder1 folder2).mergeSort
    (fun a b => baseName a.1 ≤ baseName b.1)

/-! ### File committer (`file_manager.rs`, `copy_to_output`)

The output directory is an association list from file name to file bytes,
newest entry first; a copy that succeeds appends its entry.  Only the
success path is modelled (a failed copy writes nothing). -/

/-- Collision name `stem_N.ext` (or `stem_N` when the source has no
extension), as formatted by `copy_to_output`. -/
def mkIndexedName (stem ext : String) (n : Nat) : String :=
  if ext = "" then stem ++ "_" ++ natToDec n
  else stem ++ "_" ++ natToDec n ++ "." ++ ext

/-- The `while new_dest_path.exists()` search: starting at counter `n`,
return the first indexed name not present in `names`.  The fuel argument
makes the recursion structural; `names.length + 1` units are always enough
(proved below), so with that fuel this is exactly the source's loop. -/
def findFreeName (names : List String) (stem ext : String) : Nat → Nat → String
  | 0, n => mkIndexedName stem ext n
  | fuel + 1, n =>
    if (mkIndexedName stem ext n) ∈ names then
      findFreeName names stem ext fuel (n + 1)
    else mkIndexedName stem ext n

/-- Rust `FileManager::copy_to_output` on the modelled output directory: place
the source's file name under the output root, resolving a collision by the
first free `_N` name, then copy the bytes.  Returns the destination name
and the updated directory. -/
def copy_to_output (dir : List (String × List Nat)) (srcName : String)
    (srcBytes : List Nat) : String × List (String × List Nat) :=
  if srcName ∈ dir.map Prod.fst then
    let dest := findFreeName (dir.map Prod.fst) (rustStemExt srcName).1
      (rustStemExt srcName).2 (dir.length + 1) 1
    (dest, (dest, srcBytes) :: dir)
  else (srcName, (srcName, srcBytes) :: dir)

/-! ### Decision controller (`gui_v2.rs`, `PhotoComparisonApp`) -/

/-- The `ImageAnalysis` record of `image_analyzer.rs` (`f64` fields as `ℚ`). -/
structure ImageAnalysis where
  file_path : String
  file_size_mb : ℚ
  width : Nat
  height : Nat
  megapixels : ℚ
  metadata_count : Nat
  exif_data : List (String × String)
  quality_score : Nat
  hash : String
deriving DecidableEq

/-- The `AppState` enum of `gui_v2.rs`. -/
inductive AppState where
  | ShowingImages : AppState
  | Loading : String → AppState
  | ProcessingChoice : Nat → String → AppState
deriving DecidableEq

/-- The session-relevant state of `PhotoComparisonApp`: the pair list,
current index, the two current analyses, the counters, the exit flag and
the pending metadata-donor slot.  Textures, hover flags, animation time
and the `next_data` image handoff (whose analyses re-enter the state via
`current_analysis1/2`) are presentation plumbing and are omitted. -/
structure App where
  state : AppState
  all_pairs : List (String × String)
  current_index : Nat
  current_analysis1 : Option ImageAnalysis
  current_analysis2 : Option ImageAnalysis
  selected_count : Nat
  skipped_count : Nat
  exit_program : Bool
  metadata_transfer_source : Option String
  metadata_transfer_pending : Bool
deriving DecidableEq

/-- Rust `PhotoComparisonApp::new`. -/
def App.new (pairs : List (String × String)) : App where
  state := AppState.Loading "Caricamento prima coppia..."
  all_pairs := pairs
  current_index := 0
  current_analysis1 := none
  current_analysis2 := none
  selected_count := 0
  skipped_count := 0
  exit_program := false
  metadata_transfer_source := none
  metadata_transfer_pending := false

/-- Rust `move_to_next`: advance the index; at the end of the list raise the
exit flag, otherwise (when still showing images) switch to loading the
next pair. -/
def move_to_next (s : App) : App :=
  let s1 : App := { s with current_index := s.current_index + 1 }
  if s1.current_index ≥ s1.all_pairs.length then
    { s1 with exit_program := true }
  else
    match s1.state with
    | AppState.ShowingImages => { s1 with state := AppState.Loading "Caricamento..." }
    | _ => s1

/-- Rust `skip_current`: bump the skipped counter and advance. -/
def skip_current (s : App) : App :=
  move_to_next { s with skipped_count := s.skipped_count + 1 }

/-- The copy request handed to the background thread of `process_choice`:
the chosen source path and the optional metadata donor. -/
structure CommitRequest where
  source : String
  donor : Option String
deriving DecidableEq

/-- Rust `process_choice`: read and unconditionally clear the donor slot, hand
the copy (with the donor) to a background thread, bump the selected
counter, show the loading screen and advance.  `commitOk` is the outcome
of `copy_to_output_with_metadata` on that thread; the source drops the
`Err` case of that `Result` (`if let Ok(_dest) = …`), so the state update
cannot depend on it. -/
def process_choice (s : App) (_choice : Nat) (path : String) (_commitOk : Bool) :
    App × CommitRequest :=
  let donor := if s.metadata_transfer_pending then s.metadata_transfer_source else none
  let s1 : App :=
    { s with
      metadata_transfer_pending := false
      metadata_transfer_source := none
      selected_count := s.selected_count + 1
      state := AppState.Loading "Preparazione prossima coppia..." }
  (move_to_next s1, ⟨path, donor⟩)

/-- Rust `make_choice` followed by the `ProcessingChoice` handling of `update`:
resolve the chosen side's path from the current pair (a no-op when no pair
is current) and run `process_choice`. -/
def choose_step (s : App) (choice : Nat) (commitOk : Bool) : App :=
  match s.all_pairs.get? s.current_index with
  | none => s
  | some pq =>
    (process_choice s choice (if choice = 1 then pq.1 else pq.2) commitOk).1

/-- Metadata count of an optional analysis
(`as_ref().map(|a| a.metadata_count).unwrap_or(0)`). -/
def metaCount (a : Option ImageAnalysis) : Nat :=
  (a.map ImageAnalysis.metadata_count).getD 0

/-- Rust `transfer_metadata`: compare the two current analyses' metadata counts;
record the richer side's path as pending donor, or clear the slot when the
counts are equal (messages as in the source; the follow-up reload thread
only refreshes the displayed pair and is omitted). -/
def transfer_metadata (s : App) : App :=
  match s.all_pairs.get? s.current_index with
  | none => s
  | some pq =>
    let c1 := metaCount s.current_analysis1
    let c2 := metaCount s.current_analysis2
    if c1 > c2 then
      { s with
        metadata_transfer_source := some pq.1
        metadata_transfer_pending := true
        state := AppState.Loading
          ("Metadati marcati per trasferimento: immagine 1 (" ++ natToDec c1
            ++ " meta) → immagine selezionata") }
    else if c2 > c1 then
      { s with
        metadata_transfer_source := some pq.2
        metadata_transfer_pending := true
        state := AppState.Loading
          ("Metadati marcati per trasferimento: immagine 2 (" ++ natToDec c2
            ++ " meta) → immagine selezionata") }
    else if c1 > 0 then
      { s with
        state := AppState.Loading
          "Entrambe le immagini hanno già lo stesso numero di metadati"
        metadata_transfer_pending := false
        metadata_transfer_source := none }
    else
      { s with
        state := AppState.Loading "Nessuna immagine ha metadati da trasferire"
        metadata_transfer_pending := false
        metadata_transfer_source := none }

/-- Operator events the controller reacts to. -/
inductive Event where
  | choose : Nat → Bool → Event
  | skip : Event
  | transfer : Event
deriving DecidableEq

/-- One controller step per event. -/
def step (s : App) : Event → App
  | Event.choose c ok => choose_step s c ok
  | Event.skip => skip_current s
  | Event.transfer => transfer_metadata s

/-- Run a list of events. -/
def run (s : App) (es : List Event) : App :=
  es.foldl step s

/-- The pending-donor slot is occupied. -/
def donor_slot_full (s : App) : Bool :=
  s.metadata_transfer_pending || s.metadata_transfer_source.isSome

/-- A concrete analysis with a given metadata count, for evaluating the
controller on explicit inputs. -/
def sampleAnalysis (count : Nat) : ImageAnalysis where
  file_path := "p"
  file_size_mb := 0
  width := 0
  height := 0
  megapixels := 0
  metadata_count := count
  exif_data := []
  quality_score := 0
  hash := ""

/-- A freshly created session on one pair `("a", "b")` whose two current
analyses carry the given metadata counts. -/
def sampleApp (c1 c2 : Nat) : App :=
  { App.new [("a", "b")] with
    current_analysis1 := some (sampleAnalysis c1)
    current_analysis2 := some (sampleAnalysis c2) }

/-! ## Helper lemmas -/

theorem decVal_digitsAux : ∀ fuel n, n ≤ fuel → decVal (digitsAux fuel n) = n := by
  intro fuel
  induction fuel with
  | zero =>
    intro n hn
    interval_cases n
    rfl
  | succ fuel ih =>
    intro n hn
    by_cases h0 : n = 0
    · subst h0; simp [digitsAux, decVal]
    · have hdiv : n / 10 ≤ fuel := by
        have : n / 10 < n := Nat.div_lt_self (Nat.pos_of_ne_zero h0) (by norm_num)
        omega
      simp only [digitsAux, if_neg h0, decVal, ih _ hdiv]
      omega

theorem digitsAux_lt_ten : ∀ fuel n, ∀ d ∈ digitsAux fuel n, d < 10 := by
  intro fuel
  induction fuel with
  | zero => intro n d hd; simp [digitsAux] at hd
  | succ fuel ih =>
    intro n d hd
    by_cases h0 : n = 0
    · subst h0; simp [digitsAux] at hd
    · simp only [digitsAux, if_neg h0, List.mem_cons] at hd
      rcases hd with h | h
      · subst h; exact Nat.mod_lt _ (by norm_num)
      · exact ih _ _ h

theorem digitChar_inj : ∀ x < 10, ∀ y < 10, digitChar x = digitChar y → x = y := by
  decide

theorem map_digitChar_inj : ∀ l₁ l₂ : List Nat, (∀ x ∈ l₁, x < 10) → (∀ x ∈ l₂, x < 10) →
    l₁.map digitChar = l₂.map digitChar → l₁ = l₂ := by
  intro l₁
  induction l₁ with
  | nil => intro l₂ _ _ h; cases l₂ <;> simp_all
  | cons a l ih =>
    intro l₂ h₁ h₂ h
    cases l₂ with
    | nil => simp at h
    | cons b l₂ =>
      simp only [List.map_cons, List.cons.injEq] at h
      have hab : a = b := by
        refine digitChar_inj a (h₁ a (by simp)) b (h₂ b (by simp)) h.1
      have : l = l₂ := by
        refine ih l₂ (fun x hx => h₁ x (by simp [hx])) (fun x hx => h₂ x (by simp [hx])) h.2
      simp [hab, this]

theorem natToDec_inj : ∀ m n : Nat, 1 ≤ m → 1 ≤ n → natToDec m = natToDec n → m = n := by
  intro m n hm hn h
  simp only [natToDec, if_neg (by omega : ¬m = 0), if_neg (by omega : ¬n = 0)] at h
  have hdata : ((digitsAux m m).reverse).map digitChar = ((digitsAux n n).reverse).map digitChar :=
    congrArg String.data h
  have hrev : (digitsAux m m).reverse = (digitsAux n n).reverse := by
    refine map_digitChar_inj _ _ ?_ ?_ hdata
    · intro x hx; exact digitsAux_lt_ten _ _ _ (List.mem_reverse.mp hx)
    · intro x hx; exact digitsAux_lt_ten _ _ _ (List.mem_reverse.mp hx)
  have hdig : digitsAux m m = digitsAux n n := List.reverse_injective hrev
  calc m = decVal (digitsAux m m) := (decVal_digitsAux m m le_rfl).symm
    _ = decVal (digitsAux n n) := by rw [hdig]
    _ = n := decVal_digitsAux n n le_rfl

theorem string_data_inj : ∀ {s t : String}, s.data = t.data → s = t := by
  intro s t h
  cases s
  cases t
  cases h
  rfl

theorem mkIndexedName_inj (stem ext : String) :
    ∀ m n, 1 ≤ m → 1 ≤ n → mkIndexedName stem ext m = mkIndexedName stem ext n → m = n := by
  intro m n hm hn h
  apply natToDec_inj m n hm hn
  apply string_data_inj
  unfold mkIndexedName at h
  by_cases he : ext = ""
  · rw [if_pos he, if_pos he] at h
    have hd := congrArg String.data h
    simp only [String.data_append, List.append_assoc] at hd
    exact List.append_cancel_left (List.append_cancel_left hd)
  · rw [if_neg he, if_neg he] at h
    have hd := congrArg String.data h
    simp only [String.data_append, List.append_assoc] at hd
    have hd2 := List.append_cancel_left (List.append_cancel_left hd)
    rw [← List.append_assoc, ← List.append_assoc] at hd2
    exact List.append_cancel_right (List.append_cancel_right hd2)

theorem exists_free (names : List String) (stem ext : String) :
    ∃ k < names.length + 1, mkIndexedName stem ext (1 + k) ∉ names := by
  by_contra hcon
  push_neg at hcon
  set L := (List.range (names.length + 1)).map (fun k => mkIndexedName stem ext (1 + k)) with hL
  have hnodup : L.Nodup := by
    refine List.Nodup.map_on ?_ (List.nodup_range _)
    intro a _ b _ hab
    have := mkIndexedName_inj stem ext (1 + a) (1 + b) (by omega) (by omega) hab
    omega
  have hsub : L.toFinset ⊆ names.toFinset := by
    intro x hx
    rw [List.mem_toFinset] at hx ⊢
    obtain ⟨k, hk, rfl⟩ := List.mem_map.mp hx
    exact hcon k (List.mem_range.mp hk)
  have hcard : names.length + 1 ≤ names.length := by
    calc names.length + 1 = L.length := by simp [hL]
    _ = L.toFinset.card := (List.toFinset_card_of_nodup hnodup).symm
    _ ≤ names.toFinset.card := Finset.card_le_card hsub
    _ ≤ names.length := List.toFinset_card_le names
  omega

theorem findFreeName_spec (names : List String) (stem ext : String) :
    ∀ fuel start, (∃ k < fuel, mkIndexedName stem ext (start + k) ∉ names) →
      findFreeName names stem ext fuel start ∉ names ∧
      ∃ k, findFreeName names stem ext fuel start = mkIndexedName stem ext (start + k) ∧
        ∀ j < k, mkIndexedName stem ext (start + j) ∈ names := by
  intro fuel
  induction fuel with
  | zero =>
    rintro start ⟨k, hk, -⟩
    exact absurd hk (Nat.not_lt_zero k)
  | succ fuel ih =>
    rintro start ⟨k, hk, hfree⟩
    by_cases hmem : mkIndexedName stem ext start ∈ names
    · have hk0 : k ≠ 0 := by
        rintro rfl
        exact hfree (by simpa using hmem)
      have hnext : ∃ k2 < fuel, mkIndexedName stem ext (start + 1 + k2) ∉ names := by
        refine ⟨k - 1, by omega, ?_⟩
        rw [show start + 1 + (k - 1) = start + k by omega]
        exact hfree
      obtain ⟨r1, k2, hk2, hmin⟩ := ih (start + 1) hnext
      rw [findFreeName, if_pos hmem]
      refine ⟨r1, k2 + 1, ?_, ?_⟩
      · rw [show start + (k2 + 1) = start + 1 + k2 by omega]
        exact hk2
      · intro j hj
        cases j with
        | zero => simpa using hmem
        | succ j =>
          rw [show start + (j + 1) = start + 1 + j by omega]
          exact hmin j (by omega)
    · rw [findFreeName, if_neg hmem]
      exact ⟨hmem, 0, by rw [Nat.add_zero], fun j hj => absurd hj (Nat.not_lt_zero j)⟩

theorem copy_dest_free (dir : List (String × List Nat)) (src : String) (bytes : List Nat) :
    (copy_to_output dir src bytes).1 ∉ dir.map Prod.fst := by
  unfold copy_to_output
  by_cases hmem : src ∈ dir.map Prod.fst
  · rw [if_pos hmem]
    dsimp only
    obtain ⟨k, hk, hfree⟩ := exists_free (dir.map Prod.fst) (rustStemExt src).1 (rustStemExt src).2
    have hlen : (dir.map Prod.fst).length = dir.length := List.length_map _ _
    exact (findFreeName_spec (dir.map Prod.fst) _ _ (dir.length + 1) 1
      ⟨k, by omega, hfree⟩).1
  · rw [if_neg hmem]
    exact hmem

theorem lookup_cons_ne {β : Type} (d k : String) (b : β) (l : List (String × β))
    (h : k ≠ d) : List.lookup k ((d, b) :: l) = List.lookup k l := by
  simp [List.lookup, beq_eq_false_iff_ne.mpr h]

theorem lookup_cons_self {β : Type} (d : String) (b : β) (l : List (String × β)) :
    List.lookup d ((d, b) :: l) = some b := by
  simp [List.lookup]

theorem fold_lookup_mem :
    ∀ (l : List String) (acc : List (String × String)) (k v : String),
      (l.foldl (fun m p => if is_image_file p then (baseName p, p) :: m else m) acc).lookup k
        = some v →
      (v ∈ l ∧ is_image_file v = true ∧ baseName v = k) ∨ acc.lookup k = some v := by
  intro l
  induction l with
  | nil => intro acc k v h; exact Or.inr h
  | cons x l ih =>
    intro acc k v h
    rw [List.foldl_cons] at h
    rcases ih _ k v h with h1 | h2
    · exact Or.inl ⟨List.mem_cons_of_mem _ h1.1, h1.2⟩
    · by_cases hx : is_image_file x = true
      · rw [if_pos hx] at h2
        by_cases hk : k = baseName x
        · have hv : x = v := by
            simpa [List.lookup, beq_iff_eq.mpr hk] using h2
          subst hv
          exact Or.inl ⟨List.mem_cons_self _ _, hx, hk.symm⟩
        · rw [lookup_cons_ne _ _ _ _ hk] at h2
          exact Or.inr h2
      · rw [if_neg hx] at h2
        exact Or.inr h2

theorem fold_lookup_isSome :
    ∀ (l : List String) (acc : List (String × String)) (k : String),
      ((l.foldl (fun m p => if is_image_file p then (baseName p, p) :: m else m) acc).lookup k).isSome
        ↔ (∃ p ∈ l, is_image_file p = true ∧ baseName p = k) ∨ (acc.lookup k).isSome := by
  intro l
  induction l with
  | nil => intro acc k; simp
  | cons x l ih =>
    intro acc k
    rw [List.foldl_cons, ih]
    by_cases hx : is_image_file x = true
    · rw [if_pos hx]
      by_cases hk : k = baseName x
      · have hsome : (List.lookup k ((baseName x, x) :: acc)) = some x := by
          simp [List.lookup, beq_iff_eq.mpr hk]
        rw [hsome]
        exact iff_of_true (Or.inr rfl)
          (Or.inl ⟨x, List.mem_cons_self _ _, hx, hk.symm⟩)
      · rw [lookup_cons_ne _ _ _ _ hk]
        constructor
        · rintro (⟨p, hp, h1, h2⟩ | h)
          · exact Or.inl ⟨p, List.mem_cons_of_mem _ hp, h1, h2⟩
          · exact Or.inr h
        · rintro (⟨p, hp, h1, h2⟩ | h)
          · rcases List.mem_cons.mp hp with rfl | hp2
            · exact absurd h2 (fun hh => hk hh.symm)
            · exact Or.inl ⟨p, hp2, h1, h2⟩
          · exact Or.inr h
    · rw [if_neg hx]
      constructor
      · rintro (⟨p, hp, h1, h2⟩ | h)
        · exact Or.inl ⟨p, List.mem_cons_of_mem _ hp, h1, h2⟩
        · exact Or.inr h
      · rintro (⟨p, hp, h1, h2⟩ | h)
        · rcases List.mem_cons.mp hp with rfl | hp2
          · exact absurd h1 (by simp [hx])
          · exact Or.inl ⟨p, hp2, h1, h2⟩
        · exact Or.inr h

theorem mem_rawPairs (folder1 folder2 : List String) (p q : String) :
    (p, q) ∈ rawPairs folder1 folder2 ↔
      q ∈ folder2 ∧ is_image_file q = true ∧
        (index1 folder1).lookup (baseName q) = some p := by
  unfold rawPairs
  rw [List.mem_filterMap]
  constructor
  · rintro ⟨a, ha, hf⟩
    by_cases hq : is_image_file a = true
    · rw [if_pos hq] at hf
      rcases Option.map_eq_some'.mp hf with ⟨v, hv, heq⟩
      injection heq with h1 h2
      subst h1
      subst h2
      exact ⟨ha, hq, hv⟩
    · rw [if_neg hq] at hf; cases hf
  · rintro ⟨hq, himg, hlook⟩
    exact ⟨q, hq, by rw [if_pos himg, hlook]; rfl⟩

theorem resolution_score_bounds (mp : ℚ) :
    5 ≤ resolution_score mp ∧ resolution_score mp ≤ 40 := by
  unfold resolution_score
  split_ifs <;> omega

set_option maxHeartbeats 4000000 in
theorem jpeg_bpp_score_bounds (bpp : ℚ) :
    5 ≤ jpeg_bpp_score bpp ∧ jpeg_bpp_score bpp ≤ 60 := by
  unfold jpeg_bpp_score
  split_ifs <;> omega

theorem compression_score_bounds (mb mp : ℚ) (l : Bool) (e : Option String) :
    5 ≤ compression_score mb mp l e ∧ compression_score mb mp l e ≤ 60 := by
  unfold compression_score
  split_ifs with h₁ h₂
  · omega
  · exact jpeg_bpp_score_bounds _
  · omega

theorem compression_score_lossless (mb mp : ℚ) (e : Option String) :
    compression_score mb mp true e = 60 := by
  simp [compression_score]

theorem compression_score_jpeg (mb mp : ℚ) (e : Option String)
    (h : lowerExt e = "jpg" ∨ lowerExt e = "jpeg") :
    compression_score mb mp false e = jpeg_bpp_score (bytes_per_pixel mb mp) := by
  simp only [compression_score, Bool.false_eq_true, if_false]
  rw [if_pos h]

theorem compression_score_other (mb mp : ℚ) (e : Option String)
    (h : ¬(lowerExt e = "jpg" ∨ lowerExt e = "jpeg")) :
    compression_score mb mp false e = 30 := by
  simp only [compression_score, Bool.false_eq_true, if_false]
  rw [if_neg h]

set_option maxHeartbeats 1000000 in
theorem jpeg_bpp_score_low (bpp : ℚ) (h : bpp < 0.3) : jpeg_bpp_score bpp = 5 := by
  unfold jpeg_bpp_score
  rw [if_neg (by push_neg; linarith), if_neg (by push_neg; linarith),
    if_neg (by push_neg; linarith), if_neg (by push_neg; linarith),
    if_neg (by push_neg; linarith), if_neg (by push_neg; linarith),
    if_neg (by push_neg; linarith), if_neg (by push_neg; linarith),
    if_neg (by push_neg; linarith), if_neg (by push_neg; linarith),
    if_neg (by push_neg; linarith)]

set_option maxHeartbeats 1000000 in
theorem resolution_score_half : resolution_score 0.5 = 5 := by
  unfold resolution_score
  rw [if_neg (by norm_num), if_neg (by norm_num), if_neg (by norm_num),
    if_neg (by norm_num), if_neg (by norm_num), if_neg (by norm_num),
    if_neg (by norm_num)]

/-! ## Claim theorems -/

/-- C2: for non-lossless inputs the compression term is the bytes-per-pixel
step table when the (lowercased) extension is a recognised lossy format
(jpg/jpeg), stepped from 60 at `bpp ≥ 4.0` down to 5 below `0.3`; other
non-lossless extensions score a flat 30; the bytes-per-pixel estimate
equals `file_size_bytes / (width × height)`; and at megapixels `0.5`,
non-lossless with a jpg/jpeg extension and `bpp < 0.3` the total score is
`10 = 5 (resolution) + 5 (compression)`. -/
theorem claim_C2 :
    (∀ bytes pixels : ℚ, pixels ≠ 0 →
      bytes_per_pixel (bytes / (1024 * 1024)) (pixels / 1000000) = bytes / pixels) ∧
    (∀ mb mp : ℚ, ∀ e : Option String,
      (lowerExt e = "jpg" ∨ lowerExt e = "jpeg") →
      compression_score mb mp false e = jpeg_bpp_score (bytes_per_pixel mb mp)) ∧
    (∀ mb mp : ℚ, bytes_per_pixel mb mp ≥ 4.0 →
      jpeg_bpp_score (bytes_per_pixel mb mp) = 60) ∧
    (∀ mb mp : ℚ, bytes_per_pixel mb mp < 0.3 →
      jpeg_bpp_score (bytes_per_pixel mb mp) = 5) ∧
    (∀ mb mp : ℚ, ∀ e : Option String,
      ¬(lowerExt e = "jpg" ∨ lowerExt e = "jpeg") →
      compression_score mb mp false e = 30) ∧
    (∀ mb : ℚ, ∀ e : Option String,
      (lowerExt e = "jpg" ∨ lowerExt e = "jpeg") →
      bytes_per_pixel mb 0.5 < 0.3 →
      calculate_quality_score mb 0.5 false e = 10) := by
  refine ⟨?_, ?_, ?_, ?_, ?_, ?_⟩
  · intro bytes pixels hp
    unfold bytes_per_pixel
    rw [div_mul_cancel₀ _ (by norm_num : (1000000 : ℚ) ≠ 0)]
    field_simp
    ring
  · exact fun mb mp e h => compression_score_jpeg mb mp e h
  · intro mb mp h
    unfold jpeg_bpp_score
    rw [if_pos h]
  · exact fun mb mp h => jpeg_bpp_score_low _ h
  · exact fun mb mp e h => compression_score_other mb mp e h
  · intro mb e he hb
    unfold calculate_quality_score
    rw [compression_score_jpeg mb 0.5 e he, jpeg_bpp_score_low _ hb,
      resolution_score_half]
    rfl

/-- Witness for C2: concrete instances discharging each hypothesis; in
particular a 0.1 MB, 0.5-megapixel jpg (bytes-per-pixel ≈ 0.21 < 0.3)
scores exactly 10. -/
theorem claim_C2_witness :
    ((500000 : ℚ) ≠ 0 ∧
      bytes_per_pixel (100 / (1024 * 1024)) (500000 / 1000000) = 100 / 500000) ∧
    ((lowerExt (some "jpg") = "jpg" ∨ lowerExt (some "jpg") = "jpeg") ∧
      compression_score 0.1 0.5 false (some "jpg")
        = jpeg_bpp_score (bytes_per_pixel 0.1 0.5)) ∧
    (bytes_per_pixel 5 1 ≥ 4.0 ∧ jpeg_bpp_score (bytes_per_pixel 5 1) = 60) ∧
    (bytes_per_pixel 0.1 0.5 < 0.3 ∧ jpeg_bpp_score (bytes_per_pixel 0.1 0.5) = 5) ∧
    (¬(lowerExt (some "gif") = "jpg" ∨ lowerExt (some "gif") = "jpeg") ∧
      compression_score 0.1 0.5 false (some "gif") = 30) ∧
    calculate_quality_score 0.1 0.5 false (some "jpg") = 10 :=
  ⟨⟨by norm_num, claim_C2.1 100 500000 (by norm_num)⟩,
   ⟨Or.inl rfl, claim_C2.2.1 0.1 0.5 (some "jpg") (Or.inl rfl)⟩,
   ⟨by norm_num [bytes_per_pixel], claim_C2.2.2.1 5 1 (by norm_num [bytes_per_pixel])⟩,
   ⟨by norm_num [bytes_per_pixel], claim_C2.2.2.2.1 0.1 0.5 (by norm_num [bytes_per_pixel])⟩,
   ⟨by decide, claim_C2.2.2.2.2.1 0.1 0.5 (some "gif") (by decide)⟩,
   claim_C2.2.2.2.2.2 0.1 (some "jpg") (Or.inl rfl) (by norm_num [bytes_per_pixel])⟩

/-- C7: for every input classified lossless the compression term is 60
regardless of file size, for every megapixel value ≥ 48 the resolution
term is 40, and `score(megapixels = 50, lossless = true, any size, any
extension) = 100`, the clamped maximum. -/
theorem claim_C7 :
    (∀ mb mp : ℚ, ∀ e : Option String, compression_score mb mp true e = 60) ∧
    (∀ mp : ℚ, mp ≥ 48 → resolution_score mp = 40) ∧
    (∀ mb : ℚ, ∀ e : Option String, calculate_quality_score mb 50 true e = 100) := by
  refine ⟨compression_score_lossless, ?_, ?_⟩
  · intro mp h
    unfold resolution_score
    rw [if_pos h]
  · intro mb e
    unfold calculate_quality_score
    rw [compression_score_lossless]
    have : resolution_score 50 = 40 := by
      unfold resolution_score
      rw [if_pos (by norm_num)]
    rw [this]
    rfl

/-- Witness for C7: the resolution-term hypothesis discharged at 50
megapixels. -/
theorem claim_C7_witness :
    (50 : ℚ) ≥ 48 ∧ resolution_score 50 = 40 :=
  ⟨by norm_num, claim_C7.2.1 50 (by norm_num)⟩

/-- C9: every quality score lies in [10, 100]: the resolution term is at
least 5, the compression term is at least 5, and the `.min(100)` clamp
never reduces the value because the raw sum is already at most
`40 + 60 = 100`. -/
theorem claim_C9 :
    ∀ (mb mp : ℚ) (l : Bool) (e : Option String),
    10 ≤ calculate_quality_score mb mp l e ∧
    calculate_quality_score mb mp l e ≤ 100 ∧
    calculate_quality_score mb mp l e
      = resolution_score mp + compression_score mb mp l e := by
  intro mb mp l e
  have hr := resolution_score_bounds mp
  have hc := compression_score_bounds mb mp l e
  unfold calculate_quality_score
  refine ⟨?_, ?_, ?_⟩ <;> omega

theorem move_to_next_spec (s : App) :
    (move_to_next s).current_index = s.current_index + 1 ∧
    (move_to_next s).selected_count = s.selected_count ∧
    (move_to_next s).skipped_count = s.skipped_count ∧
    (move_to_next s).metadata_transfer_source = s.metadata_transfer_source ∧
    (move_to_next s).metadata_transfer_pending = s.metadata_transfer_pending ∧
    (move_to_next s).all_pairs = s.all_pairs := by
  unfold move_to_next
  dsimp only
  split_ifs with h
  · simp
  · cases hs : s.state <;> simp

theorem skip_current_spec (s : App) :
    (skip_current s).skipped_count = s.skipped_count + 1 ∧
    (skip_current s).selected_count = s.selected_count ∧
    (skip_current s).current_index = s.current_index + 1 ∧
    (skip_current s).metadata_transfer_source = s.metadata_transfer_source ∧
    (skip_current s).metadata_transfer_pending = s.metadata_transfer_pending := by
  unfold skip_current
  obtain ⟨h1, h2, h3, h4, h5, _⟩ :=
    move_to_next_spec { s with skipped_count := s.skipped_count + 1 }
  exact ⟨h3, h2, h1, h4, h5⟩

theorem process_choice_spec (s : App) (c : Nat) (p : String) (ok : Bool) :
    (process_choice s c p ok).1.selected_count = s.selected_count + 1 ∧
    (process_choice s c p ok).1.skipped_count = s.skipped_count ∧
    (process_choice s c p ok).1.current_index = s.current_index + 1 ∧
    (process_choice s c p ok).1.metadata_transfer_pending = false ∧
    (process_choice s c p ok).1.metadata_transfer_source = none ∧
    (process_choice s c p ok).2
      = ⟨p, if s.metadata_transfer_pending then s.metadata_transfer_source else none⟩ := by
  unfold process_choice
  dsimp only
  obtain ⟨h1, h2, h3, h4, h5, _⟩ := move_to_next_spec
    { s with
      metadata_transfer_pending := false
      metadata_transfer_source := none
      selected_count := s.selected_count + 1
      state := AppState.Loading "Preparazione prossima coppia..." }
  exact ⟨h2, h3, h1, h5, h4, rfl⟩

/-- C1: `process_choice` cannot react to a failed commit.  The background
thread discards the `Err` case of `copy_to_output_with_metadata`
(`if let Ok(_dest) = … {}` with an empty body), while the foreground
increments the selected counter and advances before that thread even
reports: the resulting state after a failed commit is literally identical
to the state after a successful one, with `selected_count` incremented and
the index advanced, so the failure is never signalled. -/
theorem claim_C1 :
    ∀ (s : App) (c : Nat) (p : String),
    process_choice s c p false = process_choice s c p true ∧
    (process_choice s c p false).1.selected_count = s.selected_count + 1 ∧
    (process_choice s c p false).1.current_index = s.current_index + 1 := by
  intro s c p
  obtain ⟨h1, _, h3, _, _, _⟩ := process_choice_spec s c p false
  exact ⟨rfl, h1, h3⟩

/-- C4: the donor slot is cleared unconditionally by every commit, whatever
the commit outcome, and is consumed into the commit request; no event
other than a metadata-transfer request ever fills the slot; and the slot
starts empty.  Together: the slot is non-empty only between being raised
by a transfer request and the next commit. -/
theorem claim_C4 :
    (∀ (s : App) (c : Nat) (p : String) (ok : Bool),
      (process_choice s c p ok).1.metadata_transfer_pending = false ∧
      (process_choice s c p ok).1.metadata_transfer_source = none ∧
      (process_choice s c p ok).2.donor
        = (if s.metadata_transfer_pending then s.metadata_transfer_source else none)) ∧
    (∀ (s : App) (e : Event), donor_slot_full (step s e) = true →
      donor_slot_full s = true ∨ e = Event.transfer) ∧
    (∀ pairs, donor_slot_full (App.new pairs) = false) := by
  refine ⟨?_, ?_, ?_⟩
  · intro s c p ok
    obtain ⟨_, _, _, h4, h5, h6⟩ := process_choice_spec s c p ok
    exact ⟨h4, h5, by rw [h6]⟩
  · intro s e he
    cases e with
    | choose c ok =>
      left
      unfold step choose_step at he
      cases hget : s.all_pairs.get? s.current_index with
      | none => rw [hget] at he; exact he
      | some pq =>
        rw [hget] at he
        dsimp only at he
        obtain ⟨_, _, _, h4, h5, _⟩ :=
          process_choice_spec s c (if c = 1 then pq.1 else pq.2) ok
        rw [donor_slot_full, h4, h5] at he
        simp at he
    | skip =>
      left
      obtain ⟨_, _, _, h4, h5⟩ := skip_current_spec s
      rw [step] at he
      rw [donor_slot_full, h4, h5] at he
      exact he
    | transfer => right; rfl
  · intro pairs; rfl

/-- Witness for C4: a transfer request on a fresh one-pair session with
metadata counts (1, 0) fills the slot, and the theorem's second conjunct
applies to that step. -/
theorem claim_C4_witness :
    donor_slot_full (step (sampleApp 1 0) Event.transfer) = true ∧
    (donor_slot_full (sampleApp 1 0) = true ∨ Event.transfer = Event.transfer) :=
  ⟨rfl, claim_C4.2.1 (sampleApp 1 0) Event.transfer rfl⟩

/-- C3: a metadata-transfer request on a presented pair records the richer
side's path as pending donor with a side-identifying message; with equal
counts (including both zero) it clears the slot and reports no transfer;
the current index and both counters are unchanged in every case; and with
counts (10, 3) side 1 becomes the donor. -/
theorem claim_C3 :
    (∀ (s : App) (p1 p2 : String),
      s.all_pairs.get? s.current_index = some (p1, p2) →
      (metaCount s.current_analysis1 > metaCount s.current_analysis2 →
        transfer_metadata s =
          { s with
            metadata_transfer_source := some p1
            metadata_transfer_pending := true
            state := AppState.Loading
              ("Metadati marcati per trasferimento: immagine 1 ("
                ++ natToDec (metaCount s.current_analysis1)
                ++ " meta) → immagine selezionata") }) ∧
      (metaCount s.current_analysis2 > metaCount s.current_analysis1 →
        transfer_metadata s =
          { s with
            metadata_transfer_source := some p2
            metadata_transfer_pending := true
            state := AppState.Loading
              ("Metadati marcati per trasferimento: immagine 2 ("
                ++ natToDec (metaCount s.current_analysis2)
                ++ " meta) → immagine selezionata") }) ∧
      (metaCount s.current_analysis1 = metaCount s.current_analysis2 →
        metaCount s.current_analysis1 > 0 →
        transfer_metadata s =
          { s with
            metadata_transfer_source := none
            metadata_transfer_pending := false
            state := AppState.Loading
              "Entrambe le immagini hanno già lo stesso numero di metadati" }) ∧
      (metaCount s.current_analysis1 = metaCount s.current_analysis2 →
        metaCount s.current_analysis1 = 0 →
        transfer_metadata s =
          { s with
            metadata_transfer_source := none
            metadata_transfer_pending := false
            state := AppState.Loading
              "Nessuna immagine ha metadati da trasferire" }) ∧
      (metaCount s.current_analysis1 = 10 → metaCount s.current_analysis2 = 3 →
        (transfer_metadata s).metadata_transfer_source = some p1 ∧
        (transfer_metadata s).metadata_transfer_pending = true)) ∧
    (∀ s : App,
      (transfer_metadata s).current_index = s.current_index ∧
      (transfer_metadata s).selected_count = s.selected_count ∧
      (transfer_metadata s).skipped_count = s.skipped_count ∧
      (transfer_metadata s).all_pairs = s.all_pairs) := by
  constructor
  · intro s p1 p2 hget
    have hred : transfer_metadata s =
        (if metaCount s.current_analysis1 > metaCount s.current_analysis2 then
          { s with
            metadata_transfer_source := some p1
            metadata_transfer_pending := true
            state := AppState.Loading
              ("Metadati marcati per trasferimento: immagine 1 ("
                ++ natToDec (metaCount s.current_analysis1)
                ++ " meta) → immagine selezionata") }
        else if metaCount s.current_analysis2 > metaCount s.current_analysis1 then
          { s with
            metadata_transfer_source := some p2
            metadata_transfer_pending := true
            state := AppState.Loading
              ("Metadati marcati per trasferimento: immagine 2 ("
                ++ natToDec (metaCount s.current_analysis2)
                ++ " meta) → immagine selezionata") }
        else if metaCount s.current_analysis1 > 0 then
          { s with
            state := AppState.Loading
              "Entrambe le immagini hanno già lo stesso numero di metadati"
            metadata_transfer_pending := false
            metadata_transfer_source := none }
        else
          { s with
            state := AppState.Loading "Nessuna immagine ha metadati da trasferire"
            metadata_transfer_pending := false
            metadata_transfer_source := none }) := by
      unfold transfer_metadata
      rw [hget]
    refine ⟨?_, ?_, ?_, ?_, ?_⟩
    · intro h; rw [hred, if_pos h]
    · intro h
      rw [hred, if_neg (by omega), if_pos h]
    · intro h h0
      rw [hred, if_neg (by omega), if_neg (by omega), if_pos h0]
    · intro h h0
      rw [hred, if_neg (by omega), if_neg (by omega), if_neg (by omega)]
    · intro h1 h2
      rw [hred, if_pos (by omega)]
      exact ⟨rfl, rfl⟩
  · intro s
    unfold transfer_metadata
    cases hget : s.all_pairs.get? s.current_index with
    | none => exact ⟨rfl, rfl, rfl, rfl⟩
    | some pq =>
      dsimp only
      split_ifs <;> exact ⟨rfl, rfl, rfl, rfl⟩

/-- Witness for C3: on a one-pair session with metadata counts (10, 3) a
transfer request marks side 1's path `"a"` as pending donor. -/
theorem claim_C3_witness :
    (sampleApp 10 3).all_pairs.get? (sampleApp 10 3).current_index = some ("a", "b") ∧
    metaCount (sampleApp 10 3).current_analysis1 = 10 ∧
    metaCount (sampleApp 10 3).current_analysis2 = 3 ∧
    (transfer_metadata (sampleApp 10 3)).metadata_transfer_source = some "a" ∧
    (transfer_metadata (sampleApp 10 3)).metadata_transfer_pending = true := by
  refine ⟨rfl, rfl, rfl, ?_⟩
  exact (claim_C3.1 (sampleApp 10 3) "a" "b" rfl).2.2.2.2 rfl rfl

/-- C10: a skip changes only the skipped counter and the current index
among the session fields — in particular it preserves the pending donor
slot — so a donor recorded at pair `i` survives any number of skips and is
consumed (and the slot cleared) by the next commit, which can belong to a
later pair `i + n`. -/
theorem claim_C10 :
    (∀ s : App,
      (skip_current s).metadata_transfer_source = s.metadata_transfer_source ∧
      (skip_current s).metadata_transfer_pending = s.metadata_transfer_pending ∧
      (skip_current s).selected_count = s.selected_count ∧
      (skip_current s).skipped_count = s.skipped_count + 1 ∧
      (skip_current s).current_index = s.current_index + 1) ∧
    (∀ (s : App) (n : ℕ) (c : Nat) (p : String) (ok : Bool),
      (skip_current^[n] s).metadata_transfer_source = s.metadata_transfer_source ∧
      (skip_current^[n] s).metadata_transfer_pending = s.metadata_transfer_pending ∧
      (skip_current^[n] s).current_index = s.current_index + n ∧
      (process_choice (skip_current^[n] s) c p ok).2.donor
        = (if s.metadata_transfer_pending then s.metadata_transfer_source else none) ∧
      (process_choice (skip_current^[n] s) c p ok).1.metadata_transfer_source = none ∧
      (process_choice (skip_current^[n] s) c p ok).1.metadata_transfer_pending = false) := by
  have hiter : ∀ (s : App) (n : ℕ),
      (skip_current^[n] s).metadata_transfer_source = s.metadata_transfer_source ∧
      (skip_current^[n] s).metadata_transfer_pending = s.metadata_transfer_pending ∧
      (skip_current^[n] s).current_index = s.current_index + n := by
    intro s n
    induction n with
    | zero => simp
    | succ n ih =>
      obtain ⟨i1, i2, i3⟩ := ih
      obtain ⟨_, _, k3, k4, k5⟩ := skip_current_spec (skip_current^[n] s)
      rw [Function.iterate_succ_apply']
      exact ⟨k4.trans i1, k5.trans i2, by rw [k3, i3]; omega⟩
  constructor
  · intro s
    obtain ⟨h1, h2, h3, h4, h5⟩ := skip_current_spec s
    exact ⟨h4, h5, h2, h1, h3⟩
  · intro s n c p ok
    obtain ⟨i1, i2, i3⟩ := hiter s n
    obtain ⟨_, _, _, p4, p5, p6⟩ := process_choice_spec (skip_current^[n] s) c p ok
    refine ⟨i1, i2, i3, ?_, p5, p4⟩
    rw [p6]
    dsimp only
    rw [i1, i2]

/-- C6: `find_matching_files` emits a pair for a file `q` of the second
root exactly when `q` has an allow-listed extension (compared
case-insensitively) and some allow-listed file of the first root has the
case-sensitively identical base name; concretely, `Photo.jpg`/`Photo.jpg`
match, `Photo.jpg`/`photo.jpg` do not, and a shared non-allow-listed name
(`Photo.txt`) produces no pair. -/
theorem claim_C6 :
    (∀ (folder1 folder2 : List String) (q : String),
      (∃ p, (p, q) ∈ find_matching_files folder1 folder2) ↔
      (q ∈ folder2 ∧ is_image_file q = true ∧
        ∃ p ∈ folder1, is_image_file p = true ∧ baseName p = baseName q)) ∧
    find_matching_files ["root1/Photo.jpg"] ["root2/Photo.jpg"]
      = [("root1/Photo.jpg", "root2/Photo.jpg")] ∧
    find_matching_files ["root1/Photo.jpg"] ["root2/photo.jpg"] = [] ∧
    find_matching_files ["root1/Photo.txt"] ["root2/Photo.txt"] = [] ∧
    is_image_file "root1/Photo.JPG" = true := by
  refine ⟨?_, ?_, ?_, ?_, rfl⟩
  · intro f1 f2 q
    constructor
    · rintro ⟨p, hp⟩
      rw [find_matching_files, List.mem_mergeSort] at hp
      obtain ⟨hq, himg, hlook⟩ := (mem_rawPairs f1 f2 p q).mp hp
      rcases fold_lookup_mem f1 [] (baseName q) p hlook with ⟨hm, hi, hb⟩ | habs
      · exact ⟨hq, himg, p, hm, hi, hb⟩
      · cases habs
    · rintro ⟨hq, himg, p, hp, hi, hb⟩
      have hs : (((index1 f1).lookup (baseName q))).isSome := by
        rw [index1, fold_lookup_isSome f1 [] (baseName q)]
        exact Or.inl ⟨p, hp, hi, hb⟩
      obtain ⟨v, hv⟩ := Option.isSome_iff_exists.mp hs
      refine ⟨v, ?_⟩
      rw [find_matching_files, List.mem_mergeSort]
      exact (mem_rawPairs f1 f2 v q).mpr ⟨hq, himg, hv⟩
  · rw [find_matching_files,
      show rawPairs ["root1/Photo.jpg"] ["root2/Photo.jpg"]
        = [("root1/Photo.jpg", "root2/Photo.jpg")] from rfl,
      List.mergeSort_singleton]
  · rw [find_matching_files,
      show rawPairs ["root1/Photo.jpg"] ["root2/photo.jpg"] = [] from rfl,
      List.mergeSort_nil]
  · rw [find_matching_files,
      show rawPairs ["root1/Photo.txt"] ["root2/Photo.txt"] = [] from rfl,
      List.mergeSort_nil]

/-- C5: a commit's destination is the source's file name when that name is
free in the output directory, and otherwise the first free `stem_N.ext`
name (`N = 1, 2, …`, suffix before the extension, or at the end without
one); the destination never collides with an existing entry, existing
entries keep their bytes, the new entry holds the source's bytes verbatim;
and two back-to-back commits of distinct sources named `cat.jpg` into an
empty output directory land at `cat.jpg` and `cat_1.jpg` with both byte
contents intact. -/
theorem claim_C5 :
    (∀ (dir : List (String × List Nat)) (src : String) (bytes : List Nat),
      src ∉ dir.map Prod.fst → (copy_to_output dir src bytes).1 = src) ∧
    (∀ (dir : List (String × List Nat)) (src : String) (bytes : List Nat),
      src ∈ dir.map Prod.fst →
      ∃ n, 1 ≤ n ∧
        (copy_to_output dir src bytes).1
          = mkIndexedName (rustStemExt src).1 (rustStemExt src).2 n ∧
        (∀ m, 1 ≤ m → m < n →
          mkIndexedName (rustStemExt src).1 (rustStemExt src).2 m ∈ dir.map Prod.fst)) ∧
    (∀ (dir : List (String × List Nat)) (src : String) (bytes : List Nat),
      (copy_to_output dir src bytes).1 ∉ dir.map Prod.fst) ∧
    (∀ (dir : List (String × List Nat)) (src : String) (bytes : List Nat) (k : String),
      k ∈ dir.map Prod.fst →
      ((copy_to_output dir src bytes).2).lookup k = dir.lookup k) ∧
    (∀ (dir : List (String × List Nat)) (src : String) (bytes : List Nat),
      ((copy_to_output dir src bytes).2).lookup ((copy_to_output dir src bytes).1)
        = some bytes) ∧
    (∀ b1 b2 : List Nat,
      (copy_to_output [] "cat.jpg" b1).1 = "cat.jpg" ∧
      (copy_to_output (copy_to_output [] "cat.jpg" b1).2 "cat.jpg" b2).1 = "cat_1.jpg" ∧
      ((copy_to_output (copy_to_output [] "cat.jpg" b1).2 "cat.jpg" b2).2).lookup "cat.jpg"
        = some b1 ∧
      ((copy_to_output (copy_to_output [] "cat.jpg" b1).2 "cat.jpg" b2).2).lookup "cat_1.jpg"
        = some b2) := by
  have hdest : ∀ (dir : List (String × List Nat)) (src : String) (bytes : List Nat),
      (copy_to_output dir src bytes).2 = ((copy_to_output dir src bytes).1, bytes) :: dir := by
    intro dir src bytes
    unfold copy_to_output
    by_cases hmem : src ∈ dir.map Prod.fst
    · rw [if_pos hmem]
    · rw [if_neg hmem]
  refine ⟨?_, ?_, copy_dest_free, ?_, ?_, ?_⟩
  · intro dir src bytes h
    unfold copy_to_output
    rw [if_neg h]
  · intro dir src bytes h
    unfold copy_to_output
    rw [if_pos h]
    dsimp only
    obtain ⟨k, hk, hfree⟩ :=
      exists_free (dir.map Prod.fst) (rustStemExt src).1 (rustStemExt src).2
    have hlen : (dir.map Prod.fst).length = dir.length := List.length_map _ _
    obtain ⟨-, k2, hk2, hmin⟩ := findFreeName_spec (dir.map Prod.fst)
      (rustStemExt src).1 (rustStemExt src).2 (dir.length + 1) 1 ⟨k, by omega, hfree⟩
    refine ⟨1 + k2, by omega, hk2, ?_⟩
    intro m hm1 hm2
    have := hmin (m - 1) (by omega)
    rwa [show 1 + (m - 1) = m by omega] at this
  · intro dir src bytes k hk
    rw [hdest]
    have hne : k ≠ (copy_to_output dir src bytes).1 := by
      intro hcon
      exact copy_dest_free dir src bytes (hcon ▸ hk)
    exact lookup_cons_ne _ _ _ _ hne
  · intro dir src bytes
    rw [hdest]
    exact lookup_cons_self _ _ _
  · intro b1 b2
    refine ⟨rfl, rfl, ?_, ?_⟩
    · show List.lookup "cat.jpg" [("cat_1.jpg", b2), ("cat.jpg", b1)] = some b1
      rw [lookup_cons_ne _ _ _ _ (by decide)]
      exact lookup_cons_self _ _ _
    · show List.lookup "cat_1.jpg" [("cat_1.jpg", b2), ("cat.jpg", b1)] = some b2
      exact lookup_cons_self _ _ _

/-- Witness for C5: the hypothesised conjuncts applied to a one-entry
output directory holding `cat.jpg`: a fresh name is kept as-is, a
colliding name gets a `_N` suffix with `N = 1`, and the existing entry's
bytes survive the new commit. -/
theorem claim_C5_witness :
    ("dog.png" ∉ ([("cat.jpg", [7])] : List (String × List Nat)).map Prod.fst ∧
      (copy_to_output [("cat.jpg", [7])] "dog.png" [9]).1 = "dog.png") ∧
    ("cat.jpg" ∈ ([("cat.jpg", [7])] : List (String × List Nat)).map Prod.fst ∧
      ∃ n, 1 ≤ n ∧
        (copy_to_output [("cat.jpg", [7])] "cat.jpg" [9]).1
          = mkIndexedName (rustStemExt "cat.jpg").1 (rustStemExt "cat.jpg").2 n ∧
        (∀ m, 1 ≤ m → m < n →
          mkIndexedName (rustStemExt "cat.jpg").1 (rustStemExt "cat.jpg").2 m
            ∈ ([("cat.jpg", [7])] : List (String × List Nat)).map Prod.fst)) ∧
    ("cat.jpg" ∈ ([("cat.jpg", [7])] : List (String × List Nat)).map Prod.fst ∧
      ((copy_to_output [("cat.jpg", [7])] "cat.jpg" [9]).2).lookup "cat.jpg"
        = ([("cat.jpg", [7])] : List (String × List Nat)).lookup "cat.jpg") :=
  ⟨⟨by decide, claim_C5.1 [("cat.jpg", [7])] "dog.png" [9] (by decide)⟩,
   ⟨by decide, claim_C5.2.1 [("cat.jpg", [7])] "cat.jpg" [9] (by decide)⟩,
   ⟨by decide, claim_C5.2.2.2.1 [("cat.jpg", [7])] "cat.jpg" [9] "cat.jpg" (by decide)⟩⟩

end PhotoScope
